import Mathlib

/-!
Verification of the depth-navigation and gesture-control core of the
"infinite tunnel" product gallery (React app: `App`, `FloatingImage`,
`HandController`, `generateRandomPosition`).

Shallow embedding: the mutable React state of `App` becomes the structure
`AppState`; each event handler becomes a pure state-transition function;
numeric values are rationals (the source computes with JS numbers on
ranges where no overflow or rounding is at stake).
-/

/-- JS `Math.sign`: 1 for positive, -1 for negative, 0 for zero. -/
def jsSign (q : ℚ) : ℚ := if 0 < q then 1 else if q < 0 then -1 else 0

/- ## PositionGenerator (src/lib/utils.ts, `generateRandomPosition`) -/

/-- Placement record returned by `generateRandomPosition`. -/
structure Placement where
  x : ℚ
  y : ℚ
  z : ℚ
  rotation : ℚ
  scale : ℚ
  deriving DecidableEq, Repr

/-- The fixed z step between consecutive items (`idx * -400` in the source). -/
def stepDistance : ℚ := 400

/-- Embedding of `generateRandomPosition` from src/lib/utils.ts:
`seed = idx * 1337`, x/y/rotation/scale from modulo arithmetic on the seed,
`z = idx * -400`. -/
def generateRandomPosition (idx : ℕ) : Placement :=
  let seed : ℕ := idx * 1337
  { x := (((seed % 100 : ℕ) : ℚ) - 50) * 15
  , y := ((((seed * 2) % 100 : ℕ) : ℚ) - 50) * 10
  , z := (idx : ℚ) * (-400)
  , rotation := ((seed % 30 : ℕ) : ℚ) - 15
  , scale := 0.8 + ((seed % 40 : ℕ) : ℚ) / 100 }

/- ## GestureInterpreter (HandController.tsx, `predictWebcam`) -/

/-- One MediaPipe hand landmark (normalized screen coordinates). -/
structure Landmark where
  x : ℚ
  y : ℚ
  deriving DecidableEq, Repr

/-- The four landmarks `predictWebcam` reads: wrist = landmarks[0],
thumbTip = landmarks[4], indexTip = landmarks[8], middleMCP = landmarks[9]. -/
structure Hand where
  wrist : Landmark
  thumbTip : Landmark
  indexTip : Landmark
  middleMCP : Landmark
  deriving DecidableEq, Repr

/-- Squared Euclidean distance between two landmarks. The source computes
`Math.sqrt` of this; we carry the square (sqrt is monotone, so every
comparison in the source is mirrored exactly on squares). -/
def sqDist (p q : Landmark) : ℚ := (p.x - q.x) ^ 2 + (p.y - q.y) ^ 2

/-- Square of the source's `pinchDistance` (thumb tip to index tip). -/
def pinchDistSq (h : Hand) : ℚ := sqDist h.thumbTip h.indexTip

/-- Square of the source's `handScale` (wrist to middle-finger MCP). -/
def handScaleSq (h : Hand) : ℚ := sqDist h.wrist h.middleMCP

/-- Square of the divisor `(handScale || 1)` used by the source: the JS
`||` falls back to 1 exactly when `handScale` is 0, i.e. when its square
is 0 (since `handScale` is a nonnegative square root). -/
def pinchDivisorSq (h : Hand) : ℚ :=
  if handScaleSq h = 0 then 1 else handScaleSq h

/-- Square of the source's `normalizedPinch = pinchDistance / (handScale || 1)`. -/
def normalizedPinchSq (h : Hand) : ℚ := pinchDistSq h / pinchDivisorSq h

/-- The source's `isPinching = normalizedPinch < PINCH_THRESHOLD` with
`PINCH_THRESHOLD = 0.25`; on squares the threshold is `0.25^2 = 1/16`
(both sides of the source comparison are nonnegative). -/
def isPinchingOf (h : Hand) : Bool := decide (normalizedPinchSq h < 1 / 16)

/-- Edge detection on the pinch boolean (`wasPinchingRef` in the source):
an event carrying the new value is emitted only when the per-frame boolean
differs from the stored previous value; the store is then updated. Returns
(events emitted this frame, new stored value). -/
def pinchEdge (was isP : Bool) : List Bool × Bool :=
  if isP ≠ was then ([isP], isP) else ([], was)

/-- Per-frame output of the detection loop: the `onHandMove` payload and the
`onPinch` events emitted, plus the new `wasPinchingRef` value. -/
structure FrameOut where
  moveY : ℚ
  moveDetected : Bool
  pinchEvents : List Bool
  wasPinching : Bool
  deriving DecidableEq, Repr

/-- One iteration of `predictWebcam`'s result processing: with a hand, emit
`onHandMove(landmarks[9].y, true)` and the edge-triggered pinch event; with
no hand, emit `onHandMove(0.5, false)` and release any held pinch
(`if (wasPinchingRef.current) { onPinch(false); wasPinchingRef.current = false }`,
which coincides with `pinchEdge was false`). -/
def processFrame (was : Bool) : Option Hand → FrameOut
  | some h =>
      let e := pinchEdge was (isPinchingOf h)
      { moveY := h.middleMCP.y, moveDetected := true
      , pinchEvents := e.1, wasPinching := e.2 }
  | none =>
      let e := pinchEdge was false
      { moveY := 0.5, moveDetected := false
      , pinchEvents := e.1, wasPinching := e.2 }

/-- Run the edge detector over a sequence of per-frame pinch booleans,
concatenating the emitted events. -/
def pinchEdgeRun (was : Bool) : List Bool → List Bool
  | [] => []
  | b :: bs => (pinchEdge was b).1 ++ pinchEdgeRun (pinchEdge was b).2 bs

/- ## SelectionResolver (App.tsx, `handlePinch` open path) -/

/-- The source's `SWEET_SPOT_Z` constant. -/
def SWEET_SPOT_Z : ℚ := -200

/-- Distance of one item from the sweet spot:
`Math.abs(relativeZ - SWEET_SPOT_Z)` with `relativeZ = imgZ + currentCameraZ`. -/
def pinchTargetDist (camZ z : ℚ) : ℚ := |z + camZ - SWEET_SPOT_Z|

/-- The source's `forEach` scan: running pair (closest index, minimal
distance), starting from `closestImg = null, minDistance = Infinity`
(modelled as `none`; every finite distance beats Infinity, so the first
item always installs). Replacement uses strict `<`, so the first minimum
wins ties. -/
def scanClosest (camZ : ℚ) : List ℚ → ℕ → Option (ℕ × ℚ) → Option (ℕ × ℚ)
  | [], _, acc => acc
  | z :: rest, i, none =>
      scanClosest camZ rest (i + 1) (some (i, pinchTargetDist camZ z))
  | z :: rest, i, some (bi, bd) =>
      if pinchTargetDist camZ z < bd then
        scanClosest camZ rest (i + 1) (some (i, pinchTargetDist camZ z))
      else
        scanClosest camZ rest (i + 1) (some (bi, bd))

/-- The selection performed on pinch-open: scan all item z-values against
the camera depth, then `if (closestImg && minDistance < 1000)` open that
item, else nothing. Items are identified by their index in the list. -/
def resolve (zs : List ℚ) (camZ : ℚ) : Option ℕ :=
  match scanClosest camZ zs 0 none with
  | none => none
  | some (i, d) => if d < 1000 then some i else none

/- ## App state and event handlers (App.tsx) -/

/-- The mutable state of `App`: the raw camera depth motion value
`zPosition` (`rawZ`), the spring-smoothed presentation value `smoothZ`,
and the React state hooks. -/
structure AppState where
  rawZ : ℚ
  smoothZ : ℚ
  isDragging : Bool
  lastY : ℚ
  handVelocity : ℚ
  isHandDetected : Bool
  isPinching : Bool
  selectedProduct : Option ℕ
  isModalOpen : Bool
  deriving DecidableEq, Repr

/-- Embedding of `handleHandMove(y, detected)`: always records `detected`;
velocity is forced to 0 when undetected or the modal is open; a 0.15
deadzone around center 0.5 also yields 0; otherwise
`sign(diff) * (|diff| - 0.15) * 25` with `diff = 0.5 - y`. -/
def handleHandMove (s : AppState) (y : ℚ) (detected : Bool) : AppState :=
  if detected = false ∨ s.isModalOpen = true then
    { s with isHandDetected := detected, handVelocity := 0 }
  else if |(0.5 : ℚ) - y| < 0.15 then
    { s with isHandDetected := detected, handVelocity := 0 }
  else
    { s with isHandDetected := detected
           , handVelocity := jsSign ((0.5 : ℚ) - y) * (|(0.5 : ℚ) - y| - 0.15) * 25 }

/-- Embedding of `handlePinch(pinching)` over the item z-values `zs`:
`setIsPinching` always fires; on a rising `true` with the modal open the
modal closes (keeping `selectedProduct`); with the modal closed the
resolver runs against `zPosition.get()` (the raw value) and on success
sets the product, opens the modal and zeroes the velocity. -/
def handlePinch (zs : List ℚ) (s : AppState) (pinching : Bool) : AppState :=
  if pinching then
    if s.isModalOpen then
      { s with isPinching := pinching, isModalOpen := false }
    else
      match resolve zs s.rawZ with
      | some i =>
          { s with isPinching := pinching, selectedProduct := some i
                 , isModalOpen := true, handVelocity := 0 }
      | none => { s with isPinching := pinching }
  else { s with isPinching := pinching }

/-- Embedding of the `useAnimationFrame` callback: integrate the hand
velocity into the raw depth while `|handVelocity| > 0.1` and the modal is
closed. -/
def frameStep (s : AppState) : AppState :=
  if (0.1 : ℚ) < |s.handVelocity| ∧ s.isModalOpen = false then
    { s with rawZ := s.rawZ + s.handVelocity }
  else s

/-- Embedding of `handlePointerDown`: no-op while the modal is open,
otherwise start dragging and record the pointer y. -/
def handlePointerDown (s : AppState) (clientY : ℚ) : AppState :=
  if s.isModalOpen then s
  else { s with isDragging := true, lastY := clientY }

/-- Embedding of `handlePointerMove`: no-op unless dragging with the modal
closed; otherwise apply `deltaY * 2.5` to the raw depth. -/
def handlePointerMove (s : AppState) (clientY : ℚ) : AppState :=
  if !s.isDragging || s.isModalOpen then s
  else
    { s with lastY := clientY
           , rawZ := s.rawZ + (clientY - s.lastY) * (2.5 : ℚ) }

/-- Embedding of `handlePointerUp` (and pointer-leave): stop dragging. -/
def handlePointerUp (s : AppState) : AppState := { s with isDragging := false }

/-- Embedding of the wheel handler: no-op while the modal is open,
otherwise apply `deltaY * 1.5` to the raw depth. -/
def handleWheel (s : AppState) (deltaY : ℚ) : AppState :=
  if s.isModalOpen then s
  else { s with rawZ := s.rawZ + deltaY * (1.5 : ℚ) }

/- ## DepthMapper (FloatingImage.tsx transforms) -/

/-- Effective depth of an item: `position.z + currentZ` (the `useTransform`
on `currentZ` in `FloatingImage`). -/
def effectiveDepth (itemZ camZ : ℚ) : ℚ := itemZ + camZ

/-- Linear mix between two output values at interpolation progress `p`. -/
def mixNum (a b p : ℚ) : ℚ := a + (b - a) * p

/-- Interpolation progress of `t` inside the input segment `[a, b]`. -/
def progressOf (a b t : ℚ) : ℚ := (t - a) / (b - a)

/-- Embedding of `useTransform(z, [-2000, -500, 0, 400], [0, 1, 1, 0])`:
framer-motion's clamped piecewise-linear interpolation at those
breakpoints. -/
def opacityOf (z : ℚ) : ℚ :=
  if z ≤ -2000 then 0
  else if z ≤ -500 then mixNum 0 1 (progressOf (-2000) (-500) z)
  else if z ≤ 0 then 1
  else if z ≤ 400 then mixNum 1 0 (progressOf 0 400 z)
  else 0

/-- Embedding of `useTransform(z, [-2000, 0], [0.5, 1.2])` (clamped). -/
def scaleOf (z : ℚ) : ℚ :=
  if z ≤ -2000 then 0.5
  else if z ≤ 0 then mixNum 0.5 1.2 (progressOf (-2000) 0 z)
  else 1.2

/-- Embedding of `useTransform(z, [-2000, -500, 0], [4, 0, 0])` (clamped). -/
def blurOf (z : ℚ) : ℚ :=
  if z ≤ -2000 then 4
  else if z ≤ -500 then mixNum 4 0 (progressOf (-2000) (-500) z)
  else 0

/- ## C6: pinch events fire only on transitions -/

/-- C6: pinch events are edge-triggered: a steady frame (per-frame boolean
equal to the stored previous value) emits nothing and leaves the store
unchanged, and the per-frame sequence [false, true, true, true, false]
starting from a non-pinching previous state emits exactly the two events
open (true) then close (false). -/
theorem pinch_edge_trigger :
    (∀ b : Bool, pinchEdge b b = ([], b)) ∧
    pinchEdgeRun false [false, true, true, true, false] = [true, false] := by
  constructor
  · intro b; cases b <;> rfl
  · rfl

/- ## C9: no-hand frames emit neutral and release the pinch latch -/

/-- C9: on a frame with no hand detected, the interpreter emits
verticalPosition 0.5 with detected = false, the stored pinch state is
always false afterwards, and a false pinch transition is emitted exactly
when a pinch was latched from a previous frame. -/
theorem no_hand_neutral_release :
    (∀ was : Bool,
      (processFrame was none).moveY = 0.5 ∧
      (processFrame was none).moveDetected = false ∧
      (processFrame was none).wasPinching = false) ∧
    (processFrame true none).pinchEvents = [false] ∧
    (processFrame false none).pinchEvents = [] := by
  refine ⟨?_, rfl, rfl⟩
  intro was; cases was <;> exact ⟨rfl, rfl, rfl⟩

/- ## C10: the pinch-distance normalization never divides by zero -/

/-- C10: the divisor of the pinch normalization is never zero (the JS
`handScale || 1` fallback), and when the wrist-to-middle-MCP hand-scale
distance is 0 the divisor falls back to 1, so the normalized pinch value
equals the raw pinch distance there; the comparison is total for every
landmark input. -/
theorem pinch_divisor_total :
    (∀ h : Hand, pinchDivisorSq h ≠ 0) ∧
    (∀ h : Hand, handScaleSq h = 0 →
      pinchDivisorSq h = 1 ∧ normalizedPinchSq h = pinchDistSq h) := by
  constructor
  · intro h
    unfold pinchDivisorSq
    split
    · exact one_ne_zero
    · assumption
  · intro h h0
    have hdiv : pinchDivisorSq h = 1 := by simp [pinchDivisorSq, h0]
    exact ⟨hdiv, by simp [normalizedPinchSq, hdiv]⟩

/-- Witness for C10 at a concrete hand whose wrist coincides with the
middle-finger MCP (hand scale 0). -/
theorem pinch_divisor_total_witness :
    pinchDivisorSq ⟨⟨0, 0⟩, ⟨0, 0⟩, ⟨3/10, 0⟩, ⟨0, 0⟩⟩ ≠ 0 ∧
    pinchDivisorSq ⟨⟨0, 0⟩, ⟨0, 0⟩, ⟨3/10, 0⟩, ⟨0, 0⟩⟩ = 1 ∧
    normalizedPinchSq ⟨⟨0, 0⟩, ⟨0, 0⟩, ⟨3/10, 0⟩, ⟨0, 0⟩⟩
      = pinchDistSq ⟨⟨0, 0⟩, ⟨0, 0⟩, ⟨3/10, 0⟩, ⟨0, 0⟩⟩ :=
  ⟨pinch_divisor_total.1 _,
   (pinch_divisor_total.2 _ (by norm_num [handScaleSq, sqDist])).1,
   (pinch_divisor_total.2 _ (by norm_num [handScaleSq, sqDist])).2⟩

/- ## C7: strict depth ordering of generated positions -/

/-- C7: z is assigned as `index * -stepDistance` with `stepDistance = 400`;
for i ≠ j the z-values of generate(i) and generate(j) differ by exactly
`stepDistance * (i - j)` (taking the difference z(j) - z(i)), hence are
distinct, and larger indices lie strictly deeper. -/
theorem position_depth_ordering (i j : ℕ) (hij : i ≠ j) :
    (generateRandomPosition i).z = (i : ℚ) * (-stepDistance) ∧
    (generateRandomPosition j).z - (generateRandomPosition i).z
      = stepDistance * ((i : ℚ) - (j : ℚ)) ∧
    (generateRandomPosition i).z ≠ (generateRandomPosition j).z ∧
    (i < j → (generateRandomPosition j).z < (generateRandomPosition i).z) := by
  have hz : ∀ k : ℕ, (generateRandomPosition k).z = (k : ℚ) * (-400) := by
    intro k; rfl
  have hcast : (i : ℚ) ≠ (j : ℚ) := by exact_mod_cast hij
  refine ⟨by rw [hz]; norm_num [stepDistance], ?_, ?_, ?_⟩
  · rw [hz, hz]; norm_num [stepDistance]; ring
  · rw [hz, hz]
    intro hcontra
    apply hcast
    have h400 : (-400 : ℚ) ≠ 0 := by norm_num
    exact mul_right_cancel₀ h400 hcontra
  · intro hlt
    rw [hz, hz]
    have : (i : ℚ) < (j : ℚ) := by exact_mod_cast hlt
    nlinarith

/-- Witness for C7 at indices 0 and 1. -/
theorem position_depth_ordering_witness :
    (generateRandomPosition 0).z = (0 : ℚ) * (-stepDistance) ∧
    (generateRandomPosition 1).z - (generateRandomPosition 0).z
      = stepDistance * ((0 : ℚ) - (1 : ℚ)) ∧
    (generateRandomPosition 0).z ≠ (generateRandomPosition 1).z ∧
    (0 < 1 → (generateRandomPosition 1).z < (generateRandomPosition 0).z) :=
  position_depth_ordering 0 1 (by decide)

/- ## C3: the modal freezes the camera depth -/

/-- C3: while the modal is open, the per-frame velocity integration, pointer
down/move and wheel handlers are all no-ops on the camera depth (indeed on
the whole state for frame/pointer/wheel), and any hand-move event forces
the gesture velocity to zero while leaving the depth unchanged. -/
theorem modal_freezes_camera (s : AppState) (h : s.isModalOpen = true)
    (y cy d : ℚ) (det : Bool) :
    frameStep s = s ∧
    handlePointerDown s cy = s ∧
    handlePointerMove s cy = s ∧
    handleWheel s d = s ∧
    (handleHandMove s y det).handVelocity = 0 ∧
    (handleHandMove s y det).rawZ = s.rawZ := by
  refine ⟨?_, ?_, ?_, ?_, ?_, ?_⟩
  · simp [frameStep, h]
  · simp [handlePointerDown, h]
  · simp [handlePointerMove, h]
  · simp [handleWheel, h]
  · simp [handleHandMove, h]
  · simp [handleHandMove, h]

/-- Witness for C3 at a concrete open-modal state. -/
theorem modal_freezes_camera_witness :
    frameStep ⟨7, 7, false, 0, 5, true, false, some 0, true⟩
      = ⟨7, 7, false, 0, 5, true, false, some 0, true⟩ ∧
    handlePointerDown ⟨7, 7, false, 0, 5, true, false, some 0, true⟩ 3
      = ⟨7, 7, false, 0, 5, true, false, some 0, true⟩ ∧
    handlePointerMove ⟨7, 7, false, 0, 5, true, false, some 0, true⟩ 3
      = ⟨7, 7, false, 0, 5, true, false, some 0, true⟩ ∧
    handleWheel ⟨7, 7, false, 0, 5, true, false, some 0, true⟩ 9
      = ⟨7, 7, false, 0, 5, true, false, some 0, true⟩ ∧
    (handleHandMove ⟨7, 7, false, 0, 5, true, false, some 0, true⟩ (9/10) true).handVelocity = 0 ∧
    (handleHandMove ⟨7, 7, false, 0, 5, true, false, some 0, true⟩ (9/10) true).rawZ
      = (⟨7, 7, false, 0, 5, true, false, some 0, true⟩ : AppState).rawZ :=
  modal_freezes_camera ⟨7, 7, false, 0, 5, true, false, some 0, true⟩ rfl (9/10) 3 9 true

/- ## C4: pinch while the modal is open closes it without re-selection -/

/-- C4: a pinch rising edge arriving with the modal open only records the
pinch and closes the modal — the selected product, camera depth and
velocity are untouched, and the result does not depend on the item list,
so the resolver is not re-run. -/
theorem pinch_while_modal_closes (zs zs' : List ℚ) (s : AppState)
    (h : s.isModalOpen = true) :
    handlePinch zs s true = { s with isPinching := true, isModalOpen := false } ∧
    handlePinch zs s true = handlePinch zs' s true := by
  constructor <;> simp [handlePinch, h]

/-- Witness for C4 at a concrete open-modal state and two item lists. -/
theorem pinch_while_modal_closes_witness :
    handlePinch [0, -400] ⟨7, 7, false, 0, 0, true, false, some 1, true⟩ true
      = { (⟨7, 7, false, 0, 0, true, false, some 1, true⟩ : AppState) with
            isPinching := true, isModalOpen := false } ∧
    handlePinch [0, -400] ⟨7, 7, false, 0, 0, true, false, some 1, true⟩ true
      = handlePinch [-800] ⟨7, 7, false, 0, 0, true, false, some 1, true⟩ true :=
  pinch_while_modal_closes [0, -400] [-800] ⟨7, 7, false, 0, 0, true, false, some 1, true⟩ rfl

/- ## C5: the velocity computation -/

/-- C5: the hand-move velocity is 0 whenever the hand is undetected; with
the modal closed and a detected hand it is exactly 0 for every vertical
position in the closed band [0.35, 0.65] (strict deadzone inside, and the
formula vanishes at the endpoints), and outside that band it equals
`sign(0.5 - y) * (|0.5 - y| - 0.15) * 25`. -/
theorem velocity_spec (s : AppState) (y : ℚ) :
    (handleHandMove s y false).handVelocity = 0 ∧
    (s.isModalOpen = false → 35/100 ≤ y → y ≤ 65/100 →
      (handleHandMove s y true).handVelocity = 0) ∧
    (s.isModalOpen = false → ¬ (35/100 ≤ y ∧ y ≤ 65/100) →
      (handleHandMove s y true).handVelocity
        = jsSign ((0.5 : ℚ) - y) * (|(0.5 : ℚ) - y| - 0.15) * 25) := by
  refine ⟨by simp [handleHandMove], ?_, ?_⟩
  · intro hm h1 h2
    have habs : |(0.5 : ℚ) - y| ≤ 0.15 := by
      rw [abs_le]
      constructor <;> [linarith; linarith]
    by_cases hdz : |(0.5 : ℚ) - y| < 0.15
    · simp [handleHandMove, hm, hdz]
    · have heq : |(0.5 : ℚ) - y| = 0.15 := le_antisymm habs (not_lt.mp hdz)
      simp [handleHandMove, hm, hdz, heq]
  · intro hm hout
    have hgt : (0.15 : ℚ) < |(0.5 : ℚ) - y| := by
      rcases not_and_or.mp hout with hy | hy
      · push_neg at hy
        calc (0.15 : ℚ) < (0.5 : ℚ) - y := by linarith
          _ ≤ |(0.5 : ℚ) - y| := le_abs_self _
      · push_neg at hy
        calc (0.15 : ℚ) < -((0.5 : ℚ) - y) := by linarith
          _ ≤ |(0.5 : ℚ) - y| := neg_le_abs _
    simp [handleHandMove, hm, not_lt.mpr (le_of_lt hgt)]

/-- Witness for C5: centered hand with the modal closed gives velocity 0. -/
theorem velocity_spec_witness :
    (handleHandMove ⟨0, 0, false, 0, 0, true, false, none, false⟩ (1/2) true).handVelocity = 0 :=
  (velocity_spec ⟨0, 0, false, 0, 0, true, false, none, false⟩ (1/2)).2.1 rfl
    (by norm_num) (by norm_num)

/- ## C8: depth projection reference values and per-segment monotonicity -/

/-- C8: within each breakpoint segment the opacity and scale transforms are
monotone in the effective depth (opacity rises on [-2000, -500], holds 1 on
[-500, 0], falls on [0, 400]; scale rises on [-2000, 0]), and at the
reference points opacity(-2000) = 0, opacity(0) = 1 and scale(0) = 1.2. -/
theorem depth_projection_monotone :
    (∀ z1 z2 : ℚ, -2000 ≤ z1 → z1 ≤ z2 → z2 ≤ -500 → opacityOf z1 ≤ opacityOf z2) ∧
    (∀ z : ℚ, -500 ≤ z → z ≤ 0 → opacityOf z = 1) ∧
    (∀ z1 z2 : ℚ, 0 ≤ z1 → z1 ≤ z2 → z2 ≤ 400 → opacityOf z2 ≤ opacityOf z1) ∧
    (∀ z1 z2 : ℚ, -2000 ≤ z1 → z1 ≤ z2 → z2 ≤ 0 → scaleOf z1 ≤ scaleOf z2) ∧
    opacityOf (-2000) = 0 ∧ opacityOf 0 = 1 ∧ scaleOf 0 = 1.2 := by
  refine ⟨?_, ?_, ?_, ?_, ?_, ?_, ?_⟩
  · intro z1 z2 h1 h12 h2
    unfold opacityOf mixNum progressOf
    split_ifs <;> linarith
  · intro z hz1 hz2
    unfold opacityOf mixNum progressOf
    split_ifs <;> linarith
  · intro z1 z2 h1 h12 h2
    unfold opacityOf mixNum progressOf
    split_ifs <;> linarith
  · intro z1 z2 h1 h12 h2
    unfold scaleOf mixNum progressOf
    split_ifs <;> linarith
  · norm_num [opacityOf]
  · norm_num [opacityOf]
  · norm_num [scaleOf, mixNum, progressOf]

/-- Witness for C8 on the far opacity segment and at the scale segment. -/
theorem depth_projection_monotone_witness :
    opacityOf (-2000) ≤ opacityOf (-1000) ∧ scaleOf (-1000) ≤ scaleOf 0 :=
  ⟨depth_projection_monotone.1 (-2000) (-1000) (by norm_num) (by norm_num) (by norm_num),
   depth_projection_monotone.2.2.2.1 (-1000) 0 (by norm_num) (by norm_num) (by norm_num)⟩

/- ## C2: characterization of the selection resolver -/

/-- Invariant of the `forEach` scan with a non-null accumulator: the result
is either the accumulator itself (then every scanned item is at least as
far as it) or the first strict improvement among the scanned items (then
that item strictly beats the accumulator and every earlier item, and is at
most every later item). -/
theorem scanClosest_acc_spec (camZ : ℚ) (zs : List ℚ) :
    ∀ (n bi : ℕ) (bd : ℚ),
    ∃ ri rd, scanClosest camZ zs n (some (bi, bd)) = some (ri, rd) ∧
      ((ri = bi ∧ rd = bd ∧
          ∀ k, k < zs.length → bd ≤ pinchTargetDist camZ (zs.getD k 0)) ∨
       (∃ k, k < zs.length ∧ ri = n + k ∧
          rd = pinchTargetDist camZ (zs.getD k 0) ∧ rd < bd ∧
          (∀ j, j < k → rd < pinchTargetDist camZ (zs.getD j 0)) ∧
          (∀ j, k < j → j < zs.length → rd ≤ pinchTargetDist camZ (zs.getD j 0)))) := by
  induction zs with
  | nil =>
      intro n bi bd
      refine ⟨bi, bd, rfl, Or.inl ⟨rfl, rfl, ?_⟩⟩
      intro k hk
      simp at hk
  | cons z rest ih =>
      intro n bi bd
      by_cases hd : pinchTargetDist camZ z < bd
      · obtain ⟨ri, rd, heq, hspec⟩ := ih (n + 1) n (pinchTargetDist camZ z)
        refine ⟨ri, rd, ?_, ?_⟩
        · simp only [scanClosest]
          rw [if_pos hd]
          exact heq
        · rcases hspec with ⟨hri, hrd, hall⟩ | ⟨k, hk, hri, hrd, hlt, hbef, haft⟩
          · right
            refine ⟨0, by simp, by omega, by simpa using hrd, ?_, ?_, ?_⟩
            · rw [hrd]; exact hd
            · intro j hj
              exact absurd hj (Nat.not_lt_zero j)
            · intro j hj0 hjlen
              obtain ⟨jj, rfl⟩ : ∃ jj, j = jj + 1 := ⟨j - 1, by omega⟩
              simp only [List.getD_cons_succ]
              rw [hrd]
              exact hall jj (by simpa using hjlen)
          · right
            refine ⟨k + 1, by simpa using hk, by omega, by simpa using hrd,
              lt_trans hlt hd, ?_, ?_⟩
            · intro j hj
              cases j with
              | zero => simpa using hlt
              | succ jj =>
                  simp only [List.getD_cons_succ]
                  exact hbef jj (by omega)
            · intro j hjk hjlen
              obtain ⟨jj, rfl⟩ : ∃ jj, j = jj + 1 := ⟨j - 1, by omega⟩
              simp only [List.getD_cons_succ]
              exact haft jj (by omega) (by simpa using hjlen)
      · obtain ⟨ri, rd, heq, hspec⟩ := ih (n + 1) bi bd
        refine ⟨ri, rd, ?_, ?_⟩
        · simp only [scanClosest]
          rw [if_neg hd]
          exact heq
        · rcases hspec with ⟨hri, hrd, hall⟩ | ⟨k, hk, hri, hrd, hlt, hbef, haft⟩
          · left
            refine ⟨hri, hrd, ?_⟩
            intro k hk
            cases k with
            | zero => simpa using not_lt.mp hd
            | succ kk =>
                simp only [List.getD_cons_succ]
                exact hall kk (by simpa using hk)
          · right
            refine ⟨k + 1, by simpa using hk, by omega, by simpa using hrd, hlt, ?_, ?_⟩
            · intro j hj
              cases j with
              | zero => simpa using lt_of_lt_of_le hlt (not_lt.mp hd)
              | succ jj =>
                  simp only [List.getD_cons_succ]
                  exact hbef jj (by omega)
            · intro j hjk hjlen
              obtain ⟨jj, rfl⟩ : ∃ jj, j = jj + 1 := ⟨j - 1, by omega⟩
              simp only [List.getD_cons_succ]
              exact haft jj (by omega) (by simpa using hjlen)

/-- For a nonempty item list, the scan returns the first index attaining
the minimal sweet-spot distance, together with that distance. -/
theorem scanClosest_spec (camZ z : ℚ) (rest : List ℚ) :
    ∃ ri rd, scanClosest camZ (z :: rest) 0 none = some (ri, rd) ∧
      ri < (z :: rest).length ∧
      rd = pinchTargetDist camZ ((z :: rest).getD ri 0) ∧
      (∀ j, j < (z :: rest).length →
        rd ≤ pinchTargetDist camZ ((z :: rest).getD j 0)) ∧
      (∀ j, j < ri → rd < pinchTargetDist camZ ((z :: rest).getD j 0)) := by
  obtain ⟨ri, rd, heq, hspec⟩ :=
    scanClosest_acc_spec camZ rest 1 0 (pinchTargetDist camZ z)
  refine ⟨ri, rd, by simp only [scanClosest]; exact heq, ?_⟩
  rcases hspec with ⟨hri, hrd, hall⟩ | ⟨k, hk, hri, hrd, hlt, hbef, haft⟩
  · subst hri
    refine ⟨by simp, by simpa using hrd, ?_, ?_⟩
    · intro j hj
      cases j with
      | zero => simp [hrd]
      | succ jj =>
          simp only [List.getD_cons_succ]
          rw [hrd]
          exact hall jj (by simpa using hj)
    · intro j hj
      exact absurd hj (Nat.not_lt_zero j)
  · have hri' : ri = k + 1 := by omega
    subst hri'
    refine ⟨by simpa using hk, by simpa using hrd, ?_, ?_⟩
    · intro j hj
      cases j with
      | zero => simpa using le_of_lt hlt
      | succ jj =>
          simp only [List.getD_cons_succ]
          rcases lt_trichotomy jj k with h | h | h
          · exact le_of_lt (hbef jj h)
          · subst h; rw [hrd]
          · exact haft jj h (by simpa using hj)
    · intro j hj
      cases j with
      | zero => simpa using hlt
      | succ jj =>
          simp only [List.getD_cons_succ]
          exact hbef jj (by omega)

/-- C2 (amended): the resolver picks the first index minimizing the
sweet-spot distance |z + cameraDepth - (-200)| whenever that minimum is
strictly below 1000 (so ties go to the first item in iteration order), and
returns none exactly when every item is at distance at least 1000 (the
boundary case, distance exactly 1000, is rejected); for relative depths
[-2000, -205, -800] it picks index 1, the item at -205. -/
theorem resolve_characterization :
    (∀ (zs : List ℚ) (camZ : ℚ) (i : ℕ), resolve zs camZ = some i →
      i < zs.length ∧
      pinchTargetDist camZ (zs.getD i 0) < 1000 ∧
      (∀ j, j < zs.length →
        pinchTargetDist camZ (zs.getD i 0) ≤ pinchTargetDist camZ (zs.getD j 0)) ∧
      (∀ j, j < i →
        pinchTargetDist camZ (zs.getD i 0) < pinchTargetDist camZ (zs.getD j 0))) ∧
    (∀ (zs : List ℚ) (camZ : ℚ), resolve zs camZ = none ↔
      ∀ j, j < zs.length → 1000 ≤ pinchTargetDist camZ (zs.getD j 0)) ∧
    resolve [-2000, -205, -800] 0 = some 1 := by
  refine ⟨?_, ?_, ?_⟩
  · intro zs camZ i h
    match zs with
    | [] => simp [resolve, scanClosest] at h
    | z :: rest =>
      obtain ⟨ri, rd, heq, hlen, hrd, hmin, hfirst⟩ := scanClosest_spec camZ z rest
      have hres : resolve (z :: rest) camZ = if rd < 1000 then some ri else none := by
        unfold resolve
        rw [heq]
      rw [hres] at h
      by_cases h1000 : rd < 1000
      · rw [if_pos h1000, Option.some.injEq] at h
        subst h
        rw [← hrd]
        exact ⟨hlen, h1000, hmin, hfirst⟩
      · rw [if_neg h1000] at h
        exact absurd h (by simp)
  · intro zs camZ
    match zs with
    | [] =>
        constructor
        · intro _ j hj
          simp at hj
        · intro _
          rfl
    | z :: rest =>
      obtain ⟨ri, rd, heq, hlen, hrd, hmin, _⟩ := scanClosest_spec camZ z rest
      have hres : resolve (z :: rest) camZ = if rd < 1000 then some ri else none := by
        unfold resolve
        rw [heq]
      rw [hres]
      constructor
      · intro h j hj
        by_cases h1000 : rd < 1000
        · rw [if_pos h1000] at h
          exact absurd h (by simp)
        · exact le_trans (not_lt.mp h1000) (hmin j hj)
      · intro h
        have : 1000 ≤ rd := by
          rw [hrd]
          exact h ri hlen
        rw [if_neg (not_lt.mpr this)]
  · norm_num [resolve, scanClosest, pinchTargetDist, SWEET_SPOT_Z]

/-- Witness for C2: the characterization applied to the concrete list
[-2000, -205, -800] at camera depth 0 and the resolved index 1. -/
theorem resolve_characterization_witness :
    1 < ([-2000, -205, -800] : List ℚ).length ∧
    pinchTargetDist 0 (([-2000, -205, -800] : List ℚ).getD 1 0) < 1000 ∧
    (∀ j, j < ([-2000, -205, -800] : List ℚ).length →
      pinchTargetDist 0 (([-2000, -205, -800] : List ℚ).getD 1 0)
        ≤ pinchTargetDist 0 (([-2000, -205, -800] : List ℚ).getD j 0)) ∧
    (∀ j, j < 1 →
      pinchTargetDist 0 (([-2000, -205, -800] : List ℚ).getD 1 0)
        < pinchTargetDist 0 (([-2000, -205, -800] : List ℚ).getD j 0)) :=
  resolve_characterization.1 [-2000, -205, -800] 0 1
    (by norm_num [resolve, scanClosest, pinchTargetDist, SWEET_SPOT_Z])

/-- Counterexample to C2 as stated: at the single item with relative depth
800 the minimum sweet-spot distance is exactly 1000 — it does not *exceed*
1000 — yet the resolver returns none (the source opens only on a strict
`minDistance < 1000`). -/
theorem resolve_boundary_cex :
    resolve [800] 0 = none ∧
    pinchTargetDist 0 (([800] : List ℚ).getD 0 0) = 1000 ∧
    ¬ 1000 < pinchTargetDist 0 (([800] : List ℚ).getD 0 0) := by
  refine ⟨?_, ?_, ?_⟩
  · norm_num [resolve, scanClosest, pinchTargetDist, SWEET_SPOT_Z]
  · norm_num [pinchTargetDist, SWEET_SPOT_Z]
  · norm_num [pinchTargetDist, SWEET_SPOT_Z]

/- ## C1: which camera depth the resolver reads -/

/-- Counterexample to C1 as stated: with raw depth 0 and smoothed depth 400
over items [0, -400, -800], the pinch-open selection is index 0 (resolved
against the raw `zPosition.get()`), while resolving against the smoothed
depth would give index 1 — so the resolver does not use the smoothed/visual
depth. -/
theorem selection_ignores_smoothZ_cex :
    (handlePinch [0, -400, -800]
        (⟨0, 400, false, 0, 0, true, false, none, false⟩ : AppState) true).selectedProduct
      = some 0 ∧
    (resolve [0, -400, -800]
        (⟨0, 400, false, 0, 0, true, false, none, false⟩ : AppState).smoothZ).elim
        ((⟨0, 400, false, 0, 0, true, false, none, false⟩ : AppState).selectedProduct) some
      = some 1 ∧
    ¬ ((handlePinch [0, -400, -800]
          (⟨0, 400, false, 0, 0, true, false, none, false⟩ : AppState) true).selectedProduct
        = (resolve [0, -400, -800]
            (⟨0, 400, false, 0, 0, true, false, none, false⟩ : AppState).smoothZ).elim
            ((⟨0, 400, false, 0, 0, true, false, none, false⟩ : AppState).selectedProduct) some) := by
  have h1 : resolve [0, -400, -800] 0 = some 0 := by
    norm_num [resolve, scanClosest, pinchTargetDist, SWEET_SPOT_Z]
  have h2 : resolve [0, -400, -800] 400 = some 1 := by
    norm_num [resolve, scanClosest, pinchTargetDist, SWEET_SPOT_Z]
  refine ⟨?_, ?_, ?_⟩
  · simp [handlePinch, h1]
  · simp [h2]
  · simp [handlePinch, h1, h2]

/-- C1 (amended): on pinch-open with the modal closed, the selection is
resolved against the raw target camera-depth scalar (`zPosition.get()`):
the selected product is exactly the resolver's answer at `rawZ` (keeping
the previous selection when the resolver rejects), and the outcome is
independent of the smoothed/visual depth. -/
theorem selection_uses_rawZ (zs : List ℚ) (s : AppState)
    (h : s.isModalOpen = false) (v : ℚ) :
    (handlePinch zs s true).selectedProduct
      = (resolve zs s.rawZ).elim s.selectedProduct some ∧
    handlePinch zs { s with smoothZ := v } true
      = { handlePinch zs s true with smoothZ := v } := by
  rcases s with ⟨rz, sz, dr, ly, hv, hd, ip, sp, mo⟩
  cases mo with
  | true => simp at h
  | false =>
      constructor
      · cases hr : resolve zs rz <;> simp [handlePinch, hr]
      · cases hr : resolve zs rz <;> simp [handlePinch, hr]

/-- Witness for C1 (amended) at a concrete modal-closed state with raw
depth 0 and smoothed depth 400. -/
theorem selection_uses_rawZ_witness :
    (handlePinch [0, -400, -800]
        (⟨0, 400, false, 0, 0, true, false, none, false⟩ : AppState) true).selectedProduct
      = (resolve [0, -400, -800]
          (⟨0, 400, false, 0, 0, true, false, none, false⟩ : AppState).rawZ).elim
          ((⟨0, 400, false, 0, 0, true, false, none, false⟩ : AppState).selectedProduct) some ∧
    handlePinch [0, -400, -800]
        { (⟨0, 400, false, 0, 0, true, false, none, false⟩ : AppState) with smoothZ := 7 } true
      = { handlePinch [0, -400, -800]
            (⟨0, 400, false, 0, 0, true, false, none, false⟩ : AppState) true with smoothZ := 7 } :=
  selection_uses_rawZ [0, -400, -800] ⟨0, 400, false, 0, 0, true, false, none, false⟩ rfl 7
